import Mathlib

/-!
Verification of the doc-path-rag Markdown ingestion pipeline.

Python strings are modelled as `List Char` (`Str`); Python `int` as `ℕ`/`ℤ`;
Python `float` as `ℚ` (the arithmetic in the source only ever multiplies
counts by the literals 0.2, 0.3, 0.5 and rounds to two decimals, so exact
rational arithmetic is a faithful model away from representation-dependent
ties; `round(x, 2)` is modelled as nearest-integer rounding of `100·x`).
Every definition is translated from `src/ingest.py`, `src/bot.py` or, where
the repository calls a third-party component whose code is not in the
repository, modelled from the specification (and marked as such).
-/

/-- Python `str` modelled as a list of characters. -/
abbrev Str := List Char

/-- Character list of a Lean string literal (used to write `Str` constants). -/
def lc (s : String) : Str := s.data

/-- Python `str.isspace` for the ASCII whitespace characters (the inputs the
claims are settled on are ASCII). -/
def pySpace (c : Char) : Bool :=
  c == ' ' || c == '\t' || c == '\n' || c == '\r' || c == '\x0b' || c == '\x0c'

/-- Python `s.strip()`: remove leading and trailing whitespace. -/
def pyStrip (s : Str) : Str :=
  ((s.dropWhile pySpace).reverse.dropWhile pySpace).reverse

/-- Python `s.strip(cut)`: remove leading and trailing characters of `cut`. -/
def stripChars (cut : Str) (s : Str) : Str :=
  ((s.dropWhile (fun c => cut.contains c)).reverse.dropWhile
      (fun c => cut.contains c)).reverse

/-- Python `s.lower()` (ASCII). -/
def toLowerStr (s : Str) : Str := s.map Char.toLower

/-- Python `s.isalpha()` (ASCII): nonempty and all alphabetic. -/
def pyIsAlpha (s : Str) : Bool := !s.isEmpty && s.all Char.isAlpha

/-- Fuelled worker for `countSubstr`; the fuel bounds the number of scanning
steps and `s.length` is always sufficient. -/
def countSubstrAux (pat : Str) : ℕ → Str → ℕ
  | 0, _ => 0
  | _ + 1, [] => 0
  | fuel + 1, c :: rest =>
    if pat.isPrefixOf (c :: rest) then
      1 + countSubstrAux pat fuel ((c :: rest).drop pat.length)
    else
      countSubstrAux pat fuel rest

/-- Python `s.count(pat)` for nonempty `pat`: non-overlapping left-to-right
count of occurrences of `pat` in `s`. -/
def countSubstr (pat s : Str) : ℕ := countSubstrAux pat s.length s

/-- Fuelled worker for `wsSplit`. -/
def wsSplitAux : ℕ → Str → List Str
  | 0, _ => []
  | _ + 1, [] => []
  | fuel + 1, c :: rest =>
    if pySpace c then wsSplitAux fuel rest
    else
      (c :: rest.takeWhile (fun x => !pySpace x)) ::
        wsSplitAux fuel (rest.dropWhile (fun x => !pySpace x))

/-- Python `s.split()` with no argument: split on runs of whitespace,
discarding empty tokens. -/
def wsSplit (s : Str) : List Str := wsSplitAux s.length s

/-- Python `s.split(sep)` for a one-character separator: split on every
occurrence, keeping empty pieces (so `splitOnChar c []` is `[[]]`). -/
def splitOnChar (sep : Char) : Str → List Str
  | [] => [ [] ]
  | c :: rest =>
    if c == sep then [] :: splitOnChar sep rest
    else
      match splitOnChar sep rest with
      | [] => [ [ c ] ]
      | t :: ts => (c :: t) :: ts

/-- Python `sep.join(parts)`. -/
def joinSepStr (sep : Str) : List Str → Str
  | [] => []
  | [ t ] => t
  | t :: ts => t ++ sep ++ joinSepStr sep ts

/-- The punctuation set stripped by the keyword heuristic
(`'.,!?;:"()[]{}'` in `src/ingest.py` line 204). -/
def punctChars : Str := lc ".,!?;:\"()[]\x7b\x7d"

/-- Python `round(q, 2)` modelled as exact rational rounding of `100·q` to the
nearest integer (the claims settled through this definition are far from the
representation-dependent tie cases of float banker's rounding). -/
def roundTo2 (q : ℚ) : ℚ := ((round (q * 100) : ℤ) : ℚ) / 100

/-! Enricher helpers, one per counting expression of
`src/ingest.py` lines 107-113. -/

/-- Raw count of 3-backtick fence markers: `content.count('```')`
(`src/ingest.py` line 107, variable `code_blocks`). -/
def codeBlocksRaw (content : Str) : ℕ := countSubstr (lc "```") content

/-- Python `content.count('[') and content.count('](')` (`src/ingest.py`
line 109): `and` returns its left operand when that operand is falsy (0) and
its right operand otherwise. -/
def linksVal (content : Str) : ℕ :=
  if countSubstr (lc "[") content = 0 then 0 else countSubstr (lc "](") content

/-- Python `content.count('![')` (`src/ingest.py` line 110). -/
def imagesVal (content : Str) : ℕ := countSubstr (lc "![") content

/-- Python `content.count('|')` (`src/ingest.py` line 111). -/
def tablesVal (content : Str) : ℕ := countSubstr [ '|' ] content

/-- One line of the list-item count: stripped line starts with `- `, `* `,
`+ `, or `"<n>."` for `n` in `1..99` (`src/ingest.py` lines 112-113). -/
def listLine (line : Str) : Bool :=
  let s := pyStrip line
  List.isPrefixOf (lc "- ") s || List.isPrefixOf (lc "* ") s ||
    List.isPrefixOf (lc "+ ") s ||
    (List.range' 1 99).any (fun j => List.isPrefixOf (Nat.toDigits 10 j ++ [ '.' ]) s)

/-- Count of list-item lines (`src/ingest.py` lines 112-113, variable
`lists`). -/
def listsVal (lines : List Str) : ℕ := (lines.filter listLine).length

/-- Content-type tags (`src/ingest.py` lines 116-128): one tag per positive
counter, defaulting to `text` when none applies. -/
def contentTypesOf (content : Str) : List Str :=
  let l :=
    (if 0 < codeBlocksRaw content then [ lc "code" ] else []) ++
    (if 0 < linksVal content then [ lc "links" ] else []) ++
    (if 0 < imagesVal content then [ lc "images" ] else []) ++
    (if 0 < tablesVal content then [ lc "tables" ] else []) ++
    (if 0 < listsVal (splitOnChar '\n' content) then [ lc "lists" ] else [])
  if l.isEmpty then [ lc "text" ] else l

/-- Insertion into a key-sorted association list (used to model Python
`sorted(header_levels.keys())`). -/
def insertPair (p : ℕ × Str) : List (ℕ × Str) → List (ℕ × Str)
  | [] => [ p ]
  | q :: rest => if p.1 ≤ q.1 then p :: q :: rest else q :: insertPair p rest

/-- Insertion sort of header (level, title) pairs by level. -/
def sortPairs : List (ℕ × Str) → List (ℕ × Str)
  | [] => []
  | p :: rest => insertPair p (sortPairs rest)

/-- Python `max(header_levels.keys()) if header_levels else 0`
(`src/ingest.py` line 144). -/
def maxHeaderLevel (headers : List (ℕ × Str)) : ℕ :=
  (headers.map Prod.fst).foldr max 0

/-- Python `min(header_levels.keys()) if header_levels else 0`
(`src/ingest.py` line 145). -/
def minHeaderLevel (headers : List (ℕ × Str)) : ℕ :=
  match headers.map Prod.fst with
  | [] => 0
  | k :: ks => ks.foldr min k

/-- Sentence count: non-blank pieces of `content.split('.')`
(`src/ingest.py` line 148). -/
def sentencesVal (content : Str) : ℕ :=
  ((splitOnChar '.' content).filter (fun s => !(pyStrip s).isEmpty)).length

/-- Keyword estimate (`src/ingest.py` lines 204-206): the filter
`len(word) > 3 and word.isalpha()` applies to the raw whitespace token;
`word.lower().strip(punct)` is applied to the tokens that pass, and the
distinct results are counted. -/
def keywordsVal (content : Str) : ℕ :=
  (((wsSplit content).filter
      (fun w => decide (3 < w.length) && pyIsAlpha w)).map
    (fun w => stripChars punctChars (toLowerStr w))).dedup.length

/-- Potential entities (`src/ingest.py` lines 207-208): first ten whitespace
tokens with an uppercase first character, length above 2 and alphabetic,
joined with commas. -/
def entitiesVal (content : Str) : Str :=
  joinSepStr [ ',' ]
    (((wsSplit content).filter
        (fun w =>
          match w with
          | [] => false
          | c :: _ => c.isUpper && decide (2 < w.length) && pyIsAlpha w)).take 10)

/-- A chunk as produced by the splitter: its raw text and the header stack
(level, title) recorded in its metadata under the `Header k` keys. -/
structure RawChunk where
  content : Str
  headers : List (ℕ × Str)

/-- The content-derived metadata record attached to each chunk by
`chunk_markdown_file` (`src/ingest.py` lines 152-213).  The purely
environmental fields (source-file paths, timestamp, file size) are omitted:
no claim depends on them.  `content_types` is kept as a list (the source
serializes it to a comma-joined string only for the vector store). -/
structure ChunkMeta where
  chunk_id : String
  chunk_index : ℕ
  chunk_length : ℕ
  word_count : ℕ
  line_count : ℕ
  non_empty_lines : ℕ
  sentence_count : ℕ
  avg_words_per_sentence : ℚ
  header_path : Str
  header_depth : ℕ
  max_header_level : ℕ
  min_header_level : ℕ
  content_types : List Str
  has_code : Bool
  has_links : Bool
  has_images : Bool
  has_tables : Bool
  has_lists : Bool
  code_blocks_count : ℕ
  inline_code_count : ℤ
  links_count : ℕ
  images_count : ℕ
  table_rows_estimate : ℕ
  list_items_count : ℕ
  is_first_chunk : Bool
  is_last_chunk : Bool
  prev_chunk_id : String
  next_chunk_id : String
  content_density : ℚ
  complexity_score : ℚ
  keywords_estimate : ℕ
  potential_entities : Str
  deriving DecidableEq

/-- Metadata computed for the chunk at index `i` of a document with `n`
chunks (`src/ingest.py` lines 97-213).  `ids` models the stream of fresh
`uuid4()` chunk ids, indexed by chunk position; the source reads
`chunks[i-1].metadata['chunk_id']` for `prev_chunk_id`, which equals
`ids (i-1)` because chunk `i-1` was built with `chunk_id = ids (i-1)`. -/
def enrichChunk (ids : ℕ → String) (n i : ℕ) (c : RawChunk) : ChunkMeta :=
  let content := c.content
  let lines := splitOnChar '\n' content
  let code_blocks := codeBlocksRaw content
  let links := linksVal content
  let images := imagesVal content
  let tables := tablesVal content
  let lists := listsVal lines
  let types := contentTypesOf content
  let headerTitles := (sortPairs c.headers).map Prod.snd
  let wc := (wsSplit content).length
  let sentences := sentencesVal content
  { chunk_id := ids i
    chunk_index := i
    chunk_length := content.length
    word_count := wc
    line_count := lines.length
    non_empty_lines := ((lines.map pyStrip).filter (fun l => !l.isEmpty)).length
    sentence_count := sentences
    avg_words_per_sentence := roundTo2 ((wc : ℚ) / ((max sentences 1 : ℕ) : ℚ))
    header_path := joinSepStr (lc " > ") headerTitles
    header_depth := headerTitles.length
    max_header_level := maxHeaderLevel c.headers
    min_header_level := minHeaderLevel c.headers
    content_types := types
    has_code := decide (0 < code_blocks)
    has_links := decide (0 < links)
    has_images := decide (0 < images)
    has_tables := decide (0 < tables)
    has_lists := decide (0 < lists)
    code_blocks_count := code_blocks / 2
    inline_code_count :=
      Int.fdiv ((countSubstr [ '`' ] content : ℤ) - (code_blocks : ℤ) * 2) 2
    links_count := links
    images_count := images
    table_rows_estimate := tables
    list_items_count := lists
    is_first_chunk := i == 0
    is_last_chunk := i == n - 1
    prev_chunk_id := if 0 < i then ids (i - 1) else ""
    next_chunk_id := ""
    content_density := roundTo2 ((wc : ℚ) / ((max lines.length 1 : ℕ) : ℚ))
    complexity_score :=
      roundTo2 (min ((maxHeaderLevel c.headers : ℚ) * (3 / 10) +
        (types.length : ℚ) * (1 / 5) + (code_blocks : ℚ) * (1 / 2) +
        (tables : ℚ) * (3 / 10)) 10)
    keywords_estimate := keywordsVal content
    potential_entities := entitiesVal content }

/-- First pass of `chunk_markdown_file`: enrich each chunk in order
(`src/ingest.py` lines 96-215). -/
def enrichFrom (ids : ℕ → String) (n : ℕ) : ℕ → List RawChunk → List ChunkMeta
  | _, [] => []
  | i, c :: rest => enrichChunk ids n i c :: enrichFrom ids n (i + 1) rest

/-- Second pass of `chunk_markdown_file` (`src/ingest.py` lines 217-220):
every chunk with a successor gets that successor's `chunk_id` as its
`next_chunk_id`. -/
def setNextIds : List ChunkMeta → List ChunkMeta
  | [] => []
  | [ m ] => [ m ]
  | m :: m2 :: rest => { m with next_chunk_id := m2.chunk_id } :: setNextIds (m2 :: rest)

/-- The metadata list produced by `chunk_markdown_file` for a document split
into the chunks `cs` (both passes). -/
def chunkMarkdownList (ids : ℕ → String) (cs : List RawChunk) : List ChunkMeta :=
  setNextIds (enrichFrom ids cs.length 0 cs)

/-- A file on disk, as seen by the corpus walker: its directory and its
base name. -/
structure FileEntry where
  dir : Str
  name : Str
  deriving DecidableEq

/-- The filter of `find_all_markdown_files` (`src/ingest.py` line 37):
`file.lower().endswith(('.md', '.markdown')) and not file.startswith('_')`. -/
def matchesMarkdown (name : Str) : Bool :=
  (List.isSuffixOf (lc ".md") (toLowerStr name) ||
      List.isSuffixOf (lc ".markdown") (toLowerStr name)) &&
    !(List.isPrefixOf [ '_' ] name)

/-- The corpus walker `find_all_markdown_files` (`src/ingest.py` lines
30-40): the filesystem walk is modelled as the traversal-ordered list `fs`
of files under the root folder; the function keeps exactly those whose name
passes `matchesMarkdown`. -/
def findAllMarkdownFiles (fs : List FileEntry) : List FileEntry :=
  fs.filter (fun e => matchesMarkdown e.name)

/-- Modelled from the spec: the chunk-boundary test of the Markdown
Structural Splitter (spec section 4.1), whose implementation
(`MarkdownHeaderTextSplitter` from the third-party langchain library) is not
part of this repository: a line is a Markdown header when it starts with one
to six `#` characters followed by a space. -/
def isHeaderLine (line : Str) : Bool :=
  let hashes := line.takeWhile (fun c => c == '#')
  decide (0 < hashes.length) && decide (hashes.length ≤ 6) &&
    (match line.drop hashes.length with
     | [] => false
     | c :: _ => c == ' ')

/-- Modelled from the spec: the Markdown Structural Splitter (spec section
4.1) groups the lines of the document into chunks, starting a new chunk
immediately before every header line; header lines are kept in the chunk
content, and content before the first header becomes its own chunk. -/
def groupChunks : List Str → List (List Str)
  | [] => []
  | l :: rest =>
    match groupChunks rest with
    | [] => [ [ l ] ]
    | [] :: gs => [ l ] :: gs
    | (m :: ms) :: gs =>
      if isHeaderLine m then [ l ] :: (m :: ms) :: gs
      else (l :: m :: ms) :: gs

/-- Modelled from the spec: splitting a raw Markdown text into the ordered
chunk contents (spec section 4.1) — split into lines, group the lines at
header boundaries, and rejoin each group. -/
def markdownSplitText (s : Str) : List Str :=
  (groupChunks (splitOnChar '\n' s)).map (joinSepStr [ '\n' ])

/-- A retrieved document as consumed by `format_context_with_metadata`
(`src/bot.py` lines 35-68): its content and the metadata fields the
formatter reads via `metadata.get` (absent keys are `none`). -/
structure RetrievedDoc where
  page_content : Str
  header1 : Option Str
  header2 : Option Str
  header3 : Option Str
  header_path : Option Str
  source_file : Option Str
  file_path : Option Str
  section_hierarchy : Option Str

/-- The per-document block of `format_context_with_metadata` (`src/bot.py`
lines 53-64), with the same defaults as the `metadata.get` calls. -/
def docContext (i : ℕ) (d : RetrievedDoc) : Str :=
  lc "\n===== DOCUMENT " ++ Nat.toDigits 10 i ++ lc " =====\nFILE: " ++
    d.source_file.getD (lc "Unknown") ++ lc "\nPATH: " ++
    d.file_path.getD (lc "Unknown") ++ lc "\nSECTION_PATH: " ++
    d.header_path.getD (lc "Root") ++ lc "\nHEADERS: H1: \"" ++
    d.header1.getD [] ++ lc "\" | H2: \"" ++ d.header2.getD [] ++
    lc "\" | H3: \"" ++ d.header3.getD [] ++ lc "\"\nHIERARCHY: " ++
    d.section_hierarchy.getD (lc "\x7b\x7d") ++ lc "\n\nCONTENT:\n" ++
    d.page_content ++ lc "\n===== END DOCUMENT " ++ Nat.toDigits 10 i ++
    lc " =====\n"

/-- The 1-based enumeration loop of `format_context_with_metadata`. -/
def docContextsFrom (i : ℕ) : List RetrievedDoc → List Str
  | [] => []
  | d :: rest => docContext i d :: docContextsFrom (i + 1) rest

/-- The retrieval formatter `format_context_with_metadata` (`src/bot.py`
lines 35-68): render every retrieved document and join the blocks with a
newline. -/
def formatContextWithMetadata (docs : List RetrievedDoc) : Str :=
  joinSepStr [ '\n' ] (docContextsFrom 1 docs)

/-- Log lines of `ingest_markdown_file` (`src/ingest.py` lines 228-250) for
one file whose chunk list is `chunks` and whose vector-store write returns
`storeRes`.  The function returning a plain value (rather than `Except`)
models the fact that the source catches the store exception internally
(lines 246-250) and always returns normally to its caller. -/
def ingestMarkdownFile (chunks : List ChunkMeta)
    (storeRes : Except String Unit) : List String :=
  if chunks.isEmpty then [ "No chunks generated" ]
  else
    match storeRes with
    | Except.ok _ => [ "ingested successfully" ]
    | Except.error e => [ "Error adding documents to vector store: " ++ e ]

/-- Observable outcome of one batch run of `ingest_all_markdown_files`. -/
structure BatchResult where
  files : List FileEntry
  successful : ℕ
  failed : ℕ
  log : List String
  deriving DecidableEq

/-- The per-file loop of `ingest_all_markdown_files` (`src/ingest.py` lines
274-290): call `ingest_markdown_file` (which cannot raise, see above), then
rename the file by prefixing `_` and count it successful.  The `except`
branch of the source (incrementing `failed_ingestions`) is reachable only if
`os.rename` or printing raises, which the filesystem model does not;
vector-store failures never reach it. -/
def processFiles (chunksOf : FileEntry → List ChunkMeta)
    (storeRes : ℕ → Except String Unit) : ℕ → List FileEntry → BatchResult
  | _, [] => ⟨ [], 0, 0, [] ⟩
  | i, f :: rest =>
    let log := ingestMarkdownFile (chunksOf f) (storeRes i)
    let r := processFiles chunksOf storeRes (i + 1) rest
    ⟨ ⟨ f.dir, '_' :: f.name ⟩ :: r.files, r.successful + 1, r.failed, log ++ r.log ⟩

/-- One batch run of `ingest_all_markdown_files` over the discovered files,
with `storeRes i` the outcome of the vector-store write for the `i`-th
file. -/
def ingestAllMarkdownFiles (chunksOf : FileEntry → List ChunkMeta)
    (storeRes : ℕ → Except String Unit) (files : List FileEntry) : BatchResult :=
  processFiles chunksOf storeRes 0 files

/-! Formalizations of the claim texts that differ from the source, used to
exhibit counterexamples. -/

/-- Claim C1's reading of `links_count`: the count of `[` when the content
contains both `[` and `](`, else 0. -/
def linksCountClaimed (content : Str) : ℕ :=
  if 0 < countSubstr (lc "[") content ∧ 0 < countSubstr (lc "](") content then
    countSubstr (lc "[") content
  else 0

/-- Claim C3's reading of `keywords_estimate`: strip punctuation first, then
keep the stripped tokens that are alphabetic and longer than 3 characters,
lowercase, count distinct. -/
def keywordsEstimateClaimed (content : Str) : ℕ :=
  ((((wsSplit content).map (fun w => stripChars punctChars w)).filter
      (fun w => pyIsAlpha w && decide (3 < w.length))).map toLowerStr).dedup.length

/-- Claim C4's reading of `complexity_score`: the fence count in the formula
is `code_blocks_count`, i.e. the fence-marker occurrences integer-divided
by 2. -/
def complexityScoreClaimed (content : Str) (headers : List (ℕ × Str)) : ℚ :=
  roundTo2 (min ((maxHeaderLevel headers : ℚ) * (3 / 10) +
    ((contentTypesOf content).length : ℚ) * (1 / 5) +
    ((codeBlocksRaw content / 2 : ℕ) : ℚ) * (1 / 2) +
    (tablesVal content : ℚ) * (3 / 10)) 10)

/-- The metadata record of the chunk at position `j` of a document whose
splitter output is `cs` (the default value of `getD` is never used: the
pipeline preserves length). -/
def metaAt (ids : ℕ → String) (cs : List RawChunk) (j : ℕ)
    (h : j < cs.length) : ChunkMeta :=
  (chunkMarkdownList ids cs).getD j (enrichChunk ids cs.length j (cs.get ⟨j, h⟩))

/-- Fixed id stream used for concrete witnesses (decimal print of the
index). -/
def ids0 : ℕ → String := fun k => String.mk (Nat.toDigits 10 k)

/-- Concrete two-chunk document used by the witnesses. -/
def cs1 : List RawChunk :=
  [ ⟨ lc "[a](b) Hello worlds again", [ (1, lc "T") ] ⟩,
    ⟨ lc "plain text here", [ (1, lc "T"), (2, lc "U") ] ⟩ ]

/-- Content with one balanced fenced code block (two fence markers). -/
def fenceContent : Str := lc "```
x
```"

/-- Content with three fence markers (an odd count above one). -/
def threeFences : Str := lc "```
a
```
b
```"

/-! Access lemmas for the two-pass metadata pipeline. -/

lemma length_enrichFrom (ids : ℕ → String) (n : ℕ) :
    ∀ (i : ℕ) (cs : List RawChunk), (enrichFrom ids n i cs).length = cs.length := by
  intro i cs
  induction cs generalizing i with
  | nil => rfl
  | cons c rest ih => simp [enrichFrom, ih]

lemma length_setNextIds : ∀ ms : List ChunkMeta, (setNextIds ms).length = ms.length := by
  intro ms
  induction ms with
  | nil => rfl
  | cons m rest ih =>
    cases rest with
    | nil => rfl
    | cons m2 r2 => simpa [setNextIds] using ih

lemma length_chunkMarkdownList (ids : ℕ → String) (cs : List RawChunk) :
    (chunkMarkdownList ids cs).length = cs.length := by
  simp [chunkMarkdownList, length_setNextIds, length_enrichFrom]

lemma getElem?_enrichFrom (ids : ℕ → String) (n : ℕ) :
    ∀ (cs : List RawChunk) (i j : ℕ),
      (enrichFrom ids n i cs)[j]? =
        (cs[j]?).map (fun c => enrichChunk ids n (i + j) c) := by
  intro cs
  induction cs with
  | nil => intro i j; simp [enrichFrom]
  | cons c rest ih =>
    intro i j
    cases j with
    | zero => simp [enrichFrom]
    | succ k =>
      have h4 : i + 1 + k = i + (k + 1) := by omega
      simp only [enrichFrom, List.getElem?_cons_succ]
      rw [ih (i + 1) k, h4]

lemma getElem?_setNextIds :
    ∀ (ms : List ChunkMeta) (j : ℕ),
      (setNextIds ms)[j]? =
        (ms[j]?).map (fun m =>
          match ms[j + 1]? with
          | some m2 => { m with next_chunk_id := m2.chunk_id }
          | none => m) := by
  intro ms
  induction ms with
  | nil => intro j; simp [setNextIds]
  | cons m rest ih =>
    intro j
    cases rest with
    | nil =>
      cases j with
      | zero => simp [setNextIds]
      | succ k => simp [setNextIds]
    | cons m2 r2 =>
      cases j with
      | zero => simp [setNextIds]
      | succ k =>
        simp only [setNextIds, List.getElem?_cons_succ]
        have h5 := ih k
        simp only [List.getElem?_cons_succ] at h5
        exact h5

lemma chunk_id_enrichChunk (ids : ℕ → String) (n i : ℕ) (c : RawChunk) :
    (enrichChunk ids n i c).chunk_id = ids i := rfl

lemma getElem?_chunkMarkdownList (ids : ℕ → String) (cs : List RawChunk)
    (j : ℕ) (h : j < cs.length) :
    (chunkMarkdownList ids cs)[j]? =
      some (if j + 1 < cs.length then
          { enrichChunk ids cs.length j cs[j] with next_chunk_id := ids (j + 1) }
        else enrichChunk ids cs.length j cs[j]) := by
  rw [chunkMarkdownList, getElem?_setNextIds, getElem?_enrichFrom,
    getElem?_enrichFrom, List.getElem?_eq_getElem h]
  by_cases hs : j + 1 < cs.length
  · rw [List.getElem?_eq_getElem hs]
    simp [hs, chunk_id_enrichChunk]
  · rw [List.getElem?_eq_none (by omega)]
    simp [hs]

lemma metaAt_eq (ids : ℕ → String) (cs : List RawChunk) (j : ℕ)
    (h : j < cs.length) :
    metaAt ids cs j h =
      if j + 1 < cs.length then
        { enrichChunk ids cs.length j cs[j] with next_chunk_id := ids (j + 1) }
      else enrichChunk ids cs.length j cs[j] := by
  have hlen : j < (chunkMarkdownList ids cs).length := by
    rw [length_chunkMarkdownList]; exact h
  have h1 := getElem?_chunkMarkdownList ids cs j h
  rw [List.getElem?_eq_getElem hlen] at h1
  have h2 : metaAt ids cs j h = (chunkMarkdownList ids cs)[j] := by
    unfold metaAt
    rw [List.getD_eq_getElem?_getD, List.getElem?_eq_getElem hlen]
    rfl
  rw [h2]
  exact Option.some.inj h1

/-! Sanity checks on concrete inputs. -/

example : countSubstr (lc "```") (lc "``````x```") = 3 := by decide

example : countSubstr (lc "[") (lc "[[a](b)") = 2 := by decide

example : countSubstr (lc "](") (lc "[[a](b)") = 1 := by decide

example : wsSplit (lc "  a bc  d ") = [ lc "a", lc "bc", lc "d" ] := by decide

example : splitOnChar '.' (lc "a.b.") = [ lc "a", lc "b", [] ] := by decide

example : linksVal (lc "[[a](b)") = 1 := by decide

example : linksVal (lc "](](") = 0 := by decide

example : listLine (lc "  12. x") = true := by decide

example : listLine (lc "text") = false := by decide

example : keywordsVal (lc "hello.") = 0 := by decide

example : keywordsVal (lc "Word word other") = 2 := by decide

example : sentencesVal (lc "a. b.  .") = 2 := by decide


/-! Helper lemmas for the claim theorems. -/

lemma roundTo2_nonneg (q : ℚ) (h : 0 ≤ q) : 0 ≤ roundTo2 q := by
  unfold roundTo2
  have h1 : (0 : ℤ) ≤ round (q * 100) := by
    rw [round_eq]
    refine Int.le_floor.mpr ?_
    push_cast
    linarith
  have h2 : (0 : ℚ) ≤ ((round (q * 100) : ℤ) : ℚ) := by exact_mod_cast h1
  exact div_nonneg h2 (by norm_num)

lemma roundTo2_le_ten (q : ℚ) (h : q ≤ 10) : roundTo2 q ≤ 10 := by
  unfold roundTo2
  have h1 : round (q * 100) ≤ 1000 := by
    rw [round_eq]
    have hle : q * 100 + 1 / 2 ≤ 1000 + 1 / 2 := by linarith
    calc ⌊q * 100 + 1 / 2⌋ ≤ ⌊(1000 : ℚ) + 1 / 2⌋ := Int.floor_le_floor hle
    _ = 1000 := by
        rw [show ((1000 : ℚ) + 1 / 2) = (1 / 2 : ℚ) + (1000 : ℤ) by push_cast; ring,
          Int.floor_add_int]
        norm_num
  rw [div_le_iff₀ (by norm_num : (0 : ℚ) < 100)]
  have : ((round (q * 100) : ℤ) : ℚ) ≤ ((1000 : ℤ) : ℚ) := by exact_mod_cast h1
  calc ((round (q * 100) : ℤ) : ℚ) ≤ ((1000 : ℤ) : ℚ) := this
  _ = 10 * 100 := by norm_num

lemma dropWhile_eq_self_of {p : Char → Bool} (s : Str)
    (hp : ∀ c ∈ s, p c = false) : s.dropWhile p = s := by
  cases s with
  | nil => rfl
  | cons c rest => simp [List.dropWhile_cons, hp c (by simp)]

lemma stripChars_eq_self (cut : Str) (s : Str)
    (hp : ∀ c ∈ s, cut.contains c = false) : stripChars cut s = s := by
  unfold stripChars
  rw [dropWhile_eq_self_of s hp,
    dropWhile_eq_self_of s.reverse (by intro c hc; exact hp c (by simpa using hc)),
    List.reverse_reverse]

lemma toLower_alpha_notin_punct (c : Char) (hc : c.isAlpha = true) :
    punctChars.contains c.toLower = false := by
  have hofn := Char.ofNat_toNat c
  have hcase : (65 ≤ c.toNat ∧ c.toNat ≤ 90) ∨ (97 ≤ c.toNat ∧ c.toNat ≤ 122) := by
    rw [Char.isAlpha, Bool.or_eq_true, Char.isUpper, Char.isLower] at hc
    rcases hc with h | h <;> rw [Bool.and_eq_true] at h <;>
      obtain ⟨h1, h2⟩ := h <;> rw [decide_eq_true_eq] at h1 h2
    · exact Or.inl ⟨UInt32.le_toNat_of_le (by norm_num [UInt32.size]) h1,
        UInt32.toNat_le_of_le (by norm_num [UInt32.size]) h2⟩
    · exact Or.inr ⟨UInt32.le_toNat_of_le (by norm_num [UInt32.size]) h1,
        UInt32.toNat_le_of_le (by norm_num [UInt32.size]) h2⟩
  obtain ⟨n, hn⟩ : ∃ n, n = c.toNat := ⟨_, rfl⟩
  rw [← hofn, ← hn]
  rw [← hn] at hcase
  rcases hcase with ⟨hn1, hn2⟩ | ⟨hn1, hn2⟩
  · interval_cases n <;> decide
  · interval_cases n <;> decide

lemma strip_lower_alpha (w : Str) (hw : pyIsAlpha w = true) :
    stripChars punctChars (toLowerStr w) = toLowerStr w := by
  apply stripChars_eq_self
  intro c hc
  rw [toLowerStr] at hc
  obtain ⟨d, hd, rfl⟩ := List.mem_map.mp hc
  apply toLower_alpha_notin_punct
  rw [pyIsAlpha, Bool.and_eq_true] at hw
  exact List.all_eq_true.mp hw.2 d hd

lemma keywordsVal_eq (content : Str) :
    keywordsVal content =
      (((wsSplit content).filter
          (fun w => decide (3 < w.length) && pyIsAlpha w)).map toLowerStr).dedup.length := by
  unfold keywordsVal
  congr 2
  apply List.map_congr_left
  intro w hw
  have hw2 := List.of_mem_filter hw
  rw [Bool.and_eq_true] at hw2
  exact strip_lower_alpha w hw2.2

lemma code_mem_contentTypes (content : Str) :
    (lc "code") ∈ contentTypesOf content ↔ 0 < codeBlocksRaw content := by
  unfold contentTypesOf
  by_cases hc : 0 < codeBlocksRaw content
  · simp [hc]
  · by_cases h1 : 0 < linksVal content <;>
      by_cases h2 : 0 < imagesVal content <;>
      by_cases h3 : 0 < tablesVal content <;>
      by_cases h4 : 0 < listsVal (splitOnChar '\n' content) <;>
      simp [hc, h1, h2, h3, h4, lc]

/-- C1 (counterexample): at the chunk content `[[a](b)` the heuristic holds
(both `[` and `](` occur), yet the stored `links_count` is
`content.count('](')` = 1 and not `content.count('[')` = 2 as the claim
states. -/
theorem claim_C1_counterexample :
    0 < countSubstr (lc "[") (lc "[[a](b)") ∧
    0 < countSubstr (lc "](") (lc "[[a](b)") ∧
    (metaAt ids0 [ ⟨ lc "[[a](b)", [] ⟩ ] 0 (by decide)).links_count ≠
      linksCountClaimed (lc "[[a](b)") := by
  refine ⟨by decide, by decide, by decide⟩

/-- C1 (amended): `links_count` is nonzero only if the content contains both
`[` and `](`; when `[` occurs at all the stored value is `content.count('](')`
(Python `and` returns its right operand), else it is 0; `has_links` is true
exactly when `links_count` is nonzero. -/
theorem claim_C1 (ids : ℕ → String) (cs : List RawChunk) (j : ℕ)
    (h : j < cs.length) :
    (metaAt ids cs j h).links_count =
      (if countSubstr (lc "[") (cs.get ⟨j, h⟩).content = 0 then 0
       else countSubstr (lc "](") (cs.get ⟨j, h⟩).content) ∧
    ((metaAt ids cs j h).has_links = true ↔ (metaAt ids cs j h).links_count ≠ 0) := by
  rw [metaAt_eq]
  constructor
  · split <;> rfl
  · split <;>
      · show decide (0 < linksVal (cs.get ⟨j, h⟩).content) = true ↔
          linksVal (cs.get ⟨j, h⟩).content ≠ 0
        simp [Nat.pos_iff_ne_zero]

/-- C1 (witness): the amended statement instantiated at the first chunk of
the concrete document `cs1`. -/
theorem claim_C1_witness :
    (metaAt ids0 cs1 0 (by decide)).links_count =
      (if countSubstr (lc "[") (cs1.get ⟨0, by decide⟩).content = 0 then 0
       else countSubstr (lc "](") (cs1.get ⟨0, by decide⟩).content) ∧
    ((metaAt ids0 cs1 0 (by decide)).has_links = true ↔
      (metaAt ids0 cs1 0 (by decide)).links_count ≠ 0) :=
  claim_C1 ids0 cs1 0 (by decide)

/-- C3 (counterexample): for the chunk content `hello.` the claim's recipe
(strip punctuation first, then filter) counts the keyword `hello`, but the
code filters on the raw token `hello.` (not alphabetic) before stripping, so
the stored `keywords_estimate` is 0. -/
theorem claim_C3_counterexample :
    (metaAt ids0 [ ⟨ lc "hello.", [] ⟩ ] 0 (by decide)).keywords_estimate ≠
      keywordsEstimateClaimed (lc "hello.") := by decide

/-- C3 (amended): `keywords_estimate` equals the number of distinct
lowercased tokens among the whitespace tokens that are alphabetic and longer
than 3 characters before any stripping (the punctuation strip is applied
after this filter, and is a no-op on alphabetic tokens). -/
theorem claim_C3 (ids : ℕ → String) (cs : List RawChunk) (j : ℕ)
    (h : j < cs.length) :
    (metaAt ids cs j h).keywords_estimate =
      (((wsSplit (cs.get ⟨j, h⟩).content).filter
          (fun w => decide (3 < w.length) && pyIsAlpha w)).map
        toLowerStr).dedup.length := by
  rw [metaAt_eq]
  split <;>
    · show keywordsVal (cs.get ⟨j, h⟩).content = _
      exact keywordsVal_eq (cs.get ⟨j, h⟩).content

/-- C3 (witness): the amended statement instantiated at the first chunk of
the concrete document `cs1`. -/
theorem claim_C3_witness :
    (metaAt ids0 cs1 0 (by decide)).keywords_estimate =
      (((wsSplit (cs1.get ⟨0, by decide⟩).content).filter
          (fun w => decide (3 < w.length) && pyIsAlpha w)).map
        toLowerStr).dedup.length :=
  claim_C3 ids0 cs1 0 (by decide)

/-- C4 (counterexample): for a chunk that is exactly one balanced fenced
code block, the code adds `code_blocks * 0.5` with `code_blocks` the raw
fence-marker count 2 (score 1.2), while the claim's formula uses
`code_blocks_count` = 1 (score 0.7). -/
theorem claim_C4_counterexample :
    (metaAt ids0 [ ⟨ fenceContent, [] ⟩ ] 0 (by decide)).complexity_score ≠
      complexityScoreClaimed fenceContent [] := by
  rw [metaAt_eq, if_neg (by decide)]
  show roundTo2 (min ((maxHeaderLevel ([] : List (ℕ × Str)) : ℚ) * (3 / 10) +
      ((contentTypesOf fenceContent).length : ℚ) * (1 / 5) +
      (codeBlocksRaw fenceContent : ℚ) * (1 / 2) +
      (tablesVal fenceContent : ℚ) * (3 / 10)) 10) ≠
    complexityScoreClaimed fenceContent []
  unfold complexityScoreClaimed
  rw [show codeBlocksRaw fenceContent = 2 by decide,
    show (contentTypesOf fenceContent).length = 1 by decide,
    show maxHeaderLevel ([] : List (ℕ × Str)) = 0 by decide,
    show tablesVal fenceContent = 0 by decide]
  norm_num [roundTo2, round_eq, min_def]

/-- C4 (amended): `complexity_score` is
`min(max_header_level*0.3 + |content_types|*0.2 + code_blocks*0.5 +
table_marker_count*0.3, 10.0)` rounded to 2 decimals, where `code_blocks` is
the RAW count of fence-marker occurrences (not divided by 2; only the stored
`code_blocks_count` field is halved) and `table_marker_count` counts `|`. -/
theorem claim_C4 (ids : ℕ → String) (cs : List RawChunk) (j : ℕ)
    (h : j < cs.length) :
    (metaAt ids cs j h).complexity_score =
      roundTo2 (min ((maxHeaderLevel (cs.get ⟨j, h⟩).headers : ℚ) * (3 / 10) +
        ((contentTypesOf (cs.get ⟨j, h⟩).content).length : ℚ) * (1 / 5) +
        (codeBlocksRaw (cs.get ⟨j, h⟩).content : ℚ) * (1 / 2) +
        (tablesVal (cs.get ⟨j, h⟩).content : ℚ) * (3 / 10)) 10) := by
  rw [metaAt_eq]
  split <;> rfl

/-- C4 (witness): the amended statement instantiated at the second chunk of
the concrete document `cs1`. -/
theorem claim_C4_witness :
    (metaAt ids0 cs1 1 (by decide)).complexity_score =
      roundTo2 (min ((maxHeaderLevel (cs1.get ⟨1, by decide⟩).headers : ℚ) * (3 / 10) +
        ((contentTypesOf (cs1.get ⟨1, by decide⟩).content).length : ℚ) * (1 / 5) +
        (codeBlocksRaw (cs1.get ⟨1, by decide⟩).content : ℚ) * (1 / 2) +
        (tablesVal (cs1.get ⟨1, by decide⟩).content : ℚ) * (3 / 10)) 10) :=
  claim_C4 ids0 cs1 1 (by decide)

/-- C10 (counterexample): a chunk content with three fence markers (an odd
count) has `code_blocks_count` = 3 / 2 = 1, not 0 as the claim's
"for any chunk containing an odd number of fence markers ... code_blocks_count
equals 0" asserts. -/
theorem claim_C10_counterexample :
    countSubstr (lc "```") threeFences = 3 ∧
    (metaAt ids0 [ ⟨ threeFences, [] ⟩ ] 0 (by decide)).has_code = true ∧
    (metaAt ids0 [ ⟨ threeFences, [] ⟩ ] 0 (by decide)).code_blocks_count ≠ 0 := by
  refine ⟨by decide, by decide, by decide⟩

/-- C10 (amended): `has_code` is true and `content_types` contains `code`
exactly when the raw count of fence markers is positive, and
`code_blocks_count` is that raw count integer-divided by 2; hence a chunk
with exactly ONE fence marker has `has_code` true and `code` in
`content_types` while `code_blocks_count` is 0 (for a larger odd count
`2k+1` the stored count is `k`, not 0). -/
theorem claim_C10 (ids : ℕ → String) (cs : List RawChunk) (j : ℕ)
    (h : j < cs.length) :
    ((metaAt ids cs j h).has_code = true ↔
      0 < countSubstr (lc "```") (cs.get ⟨j, h⟩).content) ∧
    ((lc "code") ∈ (metaAt ids cs j h).content_types ↔
      0 < countSubstr (lc "```") (cs.get ⟨j, h⟩).content) ∧
    (metaAt ids cs j h).code_blocks_count =
      countSubstr (lc "```") (cs.get ⟨j, h⟩).content / 2 := by
  rw [metaAt_eq]
  refine ⟨?_, ?_, ?_⟩
  · split <;>
      · show decide (0 < codeBlocksRaw (cs.get ⟨j, h⟩).content) = true ↔ _
        simp [codeBlocksRaw]
  · split <;>
      · show (lc "code") ∈ contentTypesOf (cs.get ⟨j, h⟩).content ↔ _
        exact code_mem_contentTypes (cs.get ⟨j, h⟩).content
  · split <;> rfl

/-- C10 (witness): the amended statement instantiated at a one-chunk
document whose content holds exactly one (unpaired) fence marker, exhibiting
`has_code` true with `code_blocks_count` 0. -/
theorem claim_C10_witness :
    ((metaAt ids0 [ ⟨ lc "a ``` b", [] ⟩ ] 0 (by decide)).has_code = true ↔
      0 < countSubstr (lc "```")
        (([ ⟨ lc "a ``` b", ([] : List (ℕ × Str)) ⟩ ] : List RawChunk).get
          ⟨0, by decide⟩).content) ∧
    ((lc "code") ∈ (metaAt ids0 [ ⟨ lc "a ``` b", [] ⟩ ] 0 (by decide)).content_types ↔
      0 < countSubstr (lc "```")
        (([ ⟨ lc "a ``` b", ([] : List (ℕ × Str)) ⟩ ] : List RawChunk).get
          ⟨0, by decide⟩).content) ∧
    (metaAt ids0 [ ⟨ lc "a ``` b", [] ⟩ ] 0 (by decide)).code_blocks_count =
      countSubstr (lc "```")
        (([ ⟨ lc "a ``` b", ([] : List (ℕ × Str)) ⟩ ] : List RawChunk).get
          ⟨0, by decide⟩).content / 2 :=
  claim_C10 ids0 [ ⟨ lc "a ``` b", [] ⟩ ] 0 (by decide)

/-- C7: for every chunk of every input the complexity score lies in the
closed interval [0, 10]: the capped sum is nonnegative and at most 10, and
rounding to 2 decimals preserves both bounds. -/
theorem claim_C7 (ids : ℕ → String) (cs : List RawChunk) (j : ℕ)
    (h : j < cs.length) :
    0 ≤ (metaAt ids cs j h).complexity_score ∧
      (metaAt ids cs j h).complexity_score ≤ 10 := by
  rw [metaAt_eq]
  have key : ∀ c : RawChunk,
      0 ≤ (enrichChunk ids cs.length j c).complexity_score ∧
        (enrichChunk ids cs.length j c).complexity_score ≤ 10 := by
    intro c
    show 0 ≤ roundTo2 (min ((maxHeaderLevel c.headers : ℚ) * (3 / 10) +
        ((contentTypesOf c.content).length : ℚ) * (1 / 5) +
        (codeBlocksRaw c.content : ℚ) * (1 / 2) +
        (tablesVal c.content : ℚ) * (3 / 10)) 10) ∧
      roundTo2 (min ((maxHeaderLevel c.headers : ℚ) * (3 / 10) +
        ((contentTypesOf c.content).length : ℚ) * (1 / 5) +
        (codeBlocksRaw c.content : ℚ) * (1 / 2) +
        (tablesVal c.content : ℚ) * (3 / 10)) 10) ≤ 10
    have hS : (0 : ℚ) ≤ (maxHeaderLevel c.headers : ℚ) * (3 / 10) +
        ((contentTypesOf c.content).length : ℚ) * (1 / 5) +
        (codeBlocksRaw c.content : ℚ) * (1 / 2) +
        (tablesVal c.content : ℚ) * (3 / 10) := by positivity
    exact ⟨roundTo2_nonneg _ (le_min hS (by norm_num)),
      roundTo2_le_ten _ (min_le_right _ _)⟩
  split
  · exact key _
  · exact key _

/-- C7 (witness): the bound instantiated at the first chunk of the concrete
document `cs1`. -/
theorem claim_C7_witness :
    0 ≤ (metaAt ids0 cs1 0 (by decide)).complexity_score ∧
      (metaAt ids0 cs1 0 (by decide)).complexity_score ≤ 10 :=
  claim_C7 ids0 cs1 0 (by decide)

/-- C5: within one document the navigation metadata forms a consistent
doubly linked order matching chunk positions: each chunk's `next_chunk_id`
is the next chunk's `chunk_id` and that chunk's `prev_chunk_id` points back;
the first chunk's `prev_chunk_id` and the last chunk's `next_chunk_id` are
empty; `is_first_chunk` and `is_last_chunk` hold exactly at the two ends. -/
theorem claim_C5 (ids : ℕ → String) (cs : List RawChunk) :
    (∀ j (h : j + 1 < cs.length),
        (metaAt ids cs j (by omega)).next_chunk_id =
          (metaAt ids cs (j + 1) h).chunk_id ∧
        (metaAt ids cs (j + 1) h).prev_chunk_id =
          (metaAt ids cs j (by omega)).chunk_id) ∧
    (∀ h : 0 < cs.length,
        (metaAt ids cs 0 h).prev_chunk_id = "" ∧
        (metaAt ids cs (cs.length - 1) (by omega)).next_chunk_id = "") ∧
    (∀ j (h : j < cs.length),
        ((metaAt ids cs j h).is_first_chunk = true ↔ j = 0) ∧
        ((metaAt ids cs j h).is_last_chunk = true ↔ j = cs.length - 1)) := by
  refine ⟨fun j h => ⟨?_, ?_⟩, fun h => ⟨?_, ?_⟩, fun j h => ⟨?_, ?_⟩⟩
  · rw [metaAt_eq, metaAt_eq, if_pos h]
    split <;> rfl
  · rw [metaAt_eq, metaAt_eq]
    split <;>
      · show (if 0 < j + 1 then ids (j + 1 - 1) else "") = ids j
        simp
  · rw [metaAt_eq]
    split <;> rfl
  · rw [metaAt_eq, if_neg (by omega)]
    rfl
  · rw [metaAt_eq]
    split <;>
      · show (j == 0) = true ↔ j = 0
        simp
  · rw [metaAt_eq]
    split <;>
      · show (j == cs.length - 1) = true ↔ j = cs.length - 1
        simp

/-- C5 (witness): the linking instantiated on the concrete two-chunk
document `cs1`: chunk 0 links forward to chunk 1, chunk 1 links back to
chunk 0, the boundary ids are empty and the end flags hold at the ends. -/
theorem claim_C5_witness :
    ((metaAt ids0 cs1 0 (by decide)).next_chunk_id =
        (metaAt ids0 cs1 1 (by decide)).chunk_id ∧
      (metaAt ids0 cs1 1 (by decide)).prev_chunk_id =
        (metaAt ids0 cs1 0 (by decide)).chunk_id) ∧
    (metaAt ids0 cs1 0 (by decide)).prev_chunk_id = "" ∧
    (metaAt ids0 cs1 (cs1.length - 1) (by decide)).next_chunk_id = "" ∧
    ((metaAt ids0 cs1 1 (by decide)).is_last_chunk = true ↔ 1 = cs1.length - 1) := by
  refine ⟨⟨?_, ?_⟩, ?_, ?_, ?_⟩
  · exact ((claim_C5 ids0 cs1).1 0 (by decide)).1
  · exact ((claim_C5 ids0 cs1).1 0 (by decide)).2
  · exact ((claim_C5 ids0 cs1).2.1 (by decide)).1
  · exact ((claim_C5 ids0 cs1).2.1 (by decide)).2
  · exact ((claim_C5 ids0 cs1).2.2 1 (by decide)).2

/-- C8: the corpus walker returns exactly the files of the traversal whose
name ends in `.md` or `.markdown` case-insensitively and does not start with
`_`; consequently no file whose name starts with `_` (in particular a file
renamed by prepending `_`) ever appears in a discovery result. -/
theorem claim_C8 (fs : List FileEntry) (e : FileEntry) :
    (e ∈ findAllMarkdownFiles fs ↔
      e ∈ fs ∧
        (List.isSuffixOf (lc ".md") (toLowerStr e.name) = true ∨
          List.isSuffixOf (lc ".markdown") (toLowerStr e.name) = true) ∧
        ¬ List.isPrefixOf [ '_' ] e.name = true) ∧
    (∀ d n : Str, (⟨ d, '_' :: n ⟩ : FileEntry) ∉ findAllMarkdownFiles fs) := by
  constructor
  · rw [findAllMarkdownFiles, List.mem_filter]
    simp [matchesMarkdown, List.isPrefixOf_iff_prefix, Bool.eq_false_iff]
  · intro d n hmem
    rw [findAllMarkdownFiles, List.mem_filter] at hmem
    have h2 := hmem.2
    simp [matchesMarkdown, List.isPrefixOf] at h2

/-- C8 (witness): on a concrete directory listing, `a.md` is discovered and
the underscore-renamed `_b.md` is not. -/
theorem claim_C8_witness :
    (⟨ lc "data", lc "a.md" ⟩ : FileEntry) ∈
      findAllMarkdownFiles [ ⟨ lc "data", lc "a.md" ⟩, ⟨ lc "data", '_' :: lc "b.md" ⟩ ] ∧
    (⟨ lc "data", '_' :: lc "b.md" ⟩ : FileEntry) ∉
      findAllMarkdownFiles [ ⟨ lc "data", lc "a.md" ⟩, ⟨ lc "data", '_' :: lc "b.md" ⟩ ] := by
  constructor
  · exact ((claim_C8 [ ⟨ lc "data", lc "a.md" ⟩, ⟨ lc "data", '_' :: lc "b.md" ⟩ ]
      ⟨ lc "data", lc "a.md" ⟩).1).mpr ⟨by decide, by decide, by decide⟩
  · exact (claim_C8 [ ⟨ lc "data", lc "a.md" ⟩, ⟨ lc "data", '_' :: lc "b.md" ⟩ ]
      ⟨ lc "data", lc "a.md" ⟩).2 (lc "data") (lc "b.md")

/-- C9: the retrieval formatter returns the empty string on an empty
sequence of retrieved chunks — no document block and no start/end marker is
emitted (and, being a pure function of its input list, it is deterministic
by construction). -/
theorem claim_C9 : formatContextWithMetadata [] = [] := rfl

/-- C2: a batch run over two files in which the vector-store write fails for
the first file.  The failure is caught inside `ingest_markdown_file` (so the
batch continues and the error is logged) but, contrary to the claim and to
the error-handling design of `ingest_all_markdown_files` (whose
`failed_ingestions` branch can then never see a store failure), the file IS
renamed with the `_` prefix and counted successful — it is no longer
discoverable for a retry. -/
theorem claim_C2 :
    (ingestAllMarkdownFiles
        (fun _ => [ enrichChunk ids0 1 0 ⟨ lc "x", [] ⟩ ])
        (fun i => if i = 0 then Except.error "store down" else Except.ok ())
        [ ⟨ lc "data", lc "a.md" ⟩, ⟨ lc "data", lc "b.md" ⟩ ]).files =
      [ ⟨ lc "data", lc "_a.md" ⟩, ⟨ lc "data", lc "_b.md" ⟩ ] ∧
    (ingestAllMarkdownFiles
        (fun _ => [ enrichChunk ids0 1 0 ⟨ lc "x", [] ⟩ ])
        (fun i => if i = 0 then Except.error "store down" else Except.ok ())
        [ ⟨ lc "data", lc "a.md" ⟩, ⟨ lc "data", lc "b.md" ⟩ ]).successful = 2 ∧
    (ingestAllMarkdownFiles
        (fun _ => [ enrichChunk ids0 1 0 ⟨ lc "x", [] ⟩ ])
        (fun i => if i = 0 then Except.error "store down" else Except.ok ())
        [ ⟨ lc "data", lc "a.md" ⟩, ⟨ lc "data", lc "b.md" ⟩ ]).failed = 0 ∧
    (ingestAllMarkdownFiles
        (fun _ => [ enrichChunk ids0 1 0 ⟨ lc "x", [] ⟩ ])
        (fun i => if i = 0 then Except.error "store down" else Except.ok ())
        [ ⟨ lc "data", lc "a.md" ⟩, ⟨ lc "data", lc "b.md" ⟩ ]).log =
      [ "Error adding documents to vector store: store down",
        "ingested successfully" ] := by
  refine ⟨by decide, by decide, by decide, by decide⟩

/-! Splitter round-trip lemmas for claim C6. -/

lemma splitOnChar_ne_nil (sep : Char) : ∀ s : Str, splitOnChar sep s ≠ [] := by
  intro s
  cases s with
  | nil => simp [splitOnChar]
  | cons c rest =>
    simp only [splitOnChar]
    split
    · simp
    · split <;> simp

lemma joinSepStr_cons_cons (sep : Str) (a : Char) (t : Str) (ts : List Str) :
    joinSepStr sep ((a :: t) :: ts) = a :: joinSepStr sep (t :: ts) := by
  cases ts <;> simp [joinSepStr]

lemma joinSepStr_splitOnChar (c : Char) : ∀ s : Str,
    joinSepStr [ c ] (splitOnChar c s) = s := by
  intro s
  induction s with
  | nil => simp [splitOnChar, joinSepStr]
  | cons a rest ih =>
    simp only [splitOnChar]
    by_cases ha : (a == c) = true
    · rw [if_pos ha]
      rcases h2 : splitOnChar c rest with _ | ⟨t, ts⟩
      · exact absurd h2 (splitOnChar_ne_nil c rest)
      · rw [h2] at ih
        have hac : a = c := by simpa using ha
        subst hac
        simp [joinSepStr, ih]
    · rw [if_neg ha]
      rcases h2 : splitOnChar c rest with _ | ⟨t, ts⟩
      · exact absurd h2 (splitOnChar_ne_nil c rest)
      · rw [h2] at ih
        rw [joinSepStr_cons_cons, ih]

lemma join_groupChunks : ∀ ls : List Str, (groupChunks ls).flatten = ls := by
  intro ls
  induction ls with
  | nil => simp [groupChunks]
  | cons l rest ih =>
    simp only [groupChunks]
    rcases hgc : groupChunks rest with _ | ⟨g, gs⟩ <;> rw [hgc] at ih
    · have hrest : rest = [] := by simpa using ih.symm
      subst hrest
      simp
    · rcases g with _ | ⟨m, ms⟩
      · rw [show (match ([] : List Str) :: gs with
            | [] => [ [ l ] ]
            | [] :: gs => [ l ] :: gs
            | (m :: ms) :: gs =>
              if isHeaderLine m then [ l ] :: (m :: ms) :: gs
              else (l :: m :: ms) :: gs) = [ l ] :: gs from rfl]
        simp only [List.flatten_cons, List.nil_append] at ih
        simp [ih]
      · rw [show (match (m :: ms) :: gs with
            | [] => [ [ l ] ]
            | [] :: gs => [ l ] :: gs
            | (m :: ms) :: gs =>
              if isHeaderLine m then [ l ] :: (m :: ms) :: gs
              else (l :: m :: ms) :: gs) =
            (if isHeaderLine m then [ l ] :: (m :: ms) :: gs
             else (l :: m :: ms) :: gs) from rfl]
        split <;> simp_all

lemma groupChunks_ne_nil : ∀ (ls : List Str) (g : List Str),
    g ∈ groupChunks ls → g ≠ [] := by
  intro ls
  induction ls with
  | nil => intro g hg; simp [groupChunks] at hg
  | cons l rest ih =>
    intro g hg
    simp only [groupChunks] at hg
    rcases hgc : groupChunks rest with _ | ⟨g0, gs⟩ <;> rw [hgc] at hg
    · simp at hg
      simp [hg]
    · rcases g0 with _ | ⟨m, ms⟩
      · simp at hg
        rcases hg with hg | hg
        · simp [hg]
        · exact ih g (by rw [hgc]; simp [hg])
      · rw [show (match (m :: ms) :: gs with
            | [] => [ [ l ] ]
            | [] :: gs => [ l ] :: gs
            | (m :: ms) :: gs =>
              if isHeaderLine m then [ l ] :: (m :: ms) :: gs
              else (l :: m :: ms) :: gs) =
            (if isHeaderLine m then [ l ] :: (m :: ms) :: gs
             else (l :: m :: ms) :: gs) from rfl] at hg
        split at hg
        · simp at hg
          rcases hg with hg | hg | hg
          · simp [hg]
          · simp [hg]
          · exact ih g (by rw [hgc]; simp [hg])
        · simp at hg
          rcases hg with hg | hg
          · simp [hg]
          · exact ih g (by rw [hgc]; simp [hg])

lemma joinSepStr_append (sep : Str) : ∀ a b : List Str, a ≠ [] → b ≠ [] →
    joinSepStr sep (a ++ b) = joinSepStr sep a ++ sep ++ joinSepStr sep b := by
  intro a
  induction a with
  | nil => intro b ha; exact absurd rfl ha
  | cons x xs ih =>
    intro b _ hb
    cases xs with
    | nil =>
      rcases b with _ | ⟨y, ys⟩
      · exact absurd rfl hb
      · simp [joinSepStr]
    | cons x2 xs2 =>
      have hih := ih b (by simp) hb
      simp only [List.cons_append] at hih ⊢
      rw [show joinSepStr sep (x :: x2 :: (xs2 ++ b)) =
            x ++ sep ++ joinSepStr sep (x2 :: (xs2 ++ b)) from rfl,
        show joinSepStr sep (x :: x2 :: xs2) =
            x ++ sep ++ joinSepStr sep (x2 :: xs2) from rfl,
        hih]
      simp [List.append_assoc]

lemma joinSepStr_map_join (sep : Str) : ∀ gs : List (List Str),
    (∀ g ∈ gs, g ≠ []) →
      joinSepStr sep (gs.map (joinSepStr sep)) = joinSepStr sep gs.flatten := by
  intro gs
  induction gs with
  | nil => intro _; simp [joinSepStr]
  | cons g rest ih =>
    intro hg
    cases rest with
    | nil => simp [joinSepStr, List.flatten]
    | cons g2 rest2 =>
      have hne_g : g ≠ [] := hg g (by simp)
      have hjoin_ne : (g2 :: rest2).flatten ≠ [] := by
        have hg2 : g2 ≠ [] := hg g2 (by simp)
        rcases g2 with _ | ⟨y, ys⟩
        · exact absurd rfl hg2
        · simp [List.flatten]
      have hih := ih (by intro g0 hg0; exact hg g0 (by simp [hg0]))
      rw [show (g :: g2 :: rest2).map (joinSepStr sep) =
            joinSepStr sep g :: (g2 :: rest2).map (joinSepStr sep) from rfl,
        show joinSepStr sep
            (joinSepStr sep g :: (g2 :: rest2).map (joinSepStr sep)) =
            joinSepStr sep g ++ sep ++
              joinSepStr sep ((g2 :: rest2).map (joinSepStr sep)) from rfl,
        hih,
        show (g :: g2 :: rest2).flatten = g ++ (g2 :: rest2).flatten from rfl,
        joinSepStr_append sep g ((g2 :: rest2).flatten) hne_g hjoin_ne]

/-- C6: splitting a Markdown text into chunks at header boundaries and
rejoining the chunk contents (with the newline separators at the chunk
boundaries) reproduces the original text exactly — the spec-modelled
splitter keeps every line, so the reconstruction is exact, not merely up to
whitespace. -/
theorem claim_C6 (s : Str) : joinSepStr [ '\n' ] (markdownSplitText s) = s := by
  unfold markdownSplitText
  rw [joinSepStr_map_join _ _ (fun g hg => groupChunks_ne_nil (splitOnChar '\n' s) g hg),
    join_groupChunks, joinSepStr_splitOnChar]
